import Mathlib

/-!
Verification of the structural C/C++ text-analysis core of `vscode-cmantic`
(`src/addHeaderGuard.ts`) against its natural-language specification.

The embedding conventions used throughout this file:

* Strings are modelled as `List Char` (or `String`, which wraps one).
* A `vscode.Position` is modelled either by its document offset (a `Nat`, via the
  `document.offsetAt`/`positionAt` bijection) for the purely offset-driven code, or by an
  explicit line/character pair (`VPos`) for the line-driven code.
* JavaScript regular expressions are embedded by their matching semantics on the concrete
  patterns appearing in the source (leftmost match, greedy with backtracking, `lastIndex`
  advancing past each match as in `String.replace`/`matchAll`).
* JavaScript truthiness tests on numbers/strings (`!x`) are embedded explicitly
  (`x = 0`, `x = ""`, `Option.none`) where the source relies on them.
-/

namespace Cmantic

/-- JavaScript word character: `\w` and `[\w\d]` both denote `[A-Za-z0-9_]`. -/
def isWordChar (c : Char) : Bool :=
  ('a' ≤ c && c ≤ 'z') || ('A' ≤ c && c ≤ 'Z') || ('0' ≤ c && c ≤ '9') || c = '_'

/-- JavaScript whitespace class `\s`, restricted to the ASCII whitespace characters. -/
def jsIsSpace (c : Char) : Bool :=
  c = ' ' || c = '\t' || c = '\n' || c = '\r' || c = '\x0b' || c = '\x0c'

/-- JavaScript line terminators, the characters *not* matched by the regex `.`. -/
def jsIsLineTerm (c : Char) : Bool :=
  c = '\n' || c = '\r' || c = '\u2028' || c = '\u2029'

/-- `getText` of an offset range `[a, b)`: the slice of the document text. -/
def slice (s : List Char) (a b : Nat) : List Char :=
  (s.drop a).take (b - a)

/-! ## Lexical masker (`maskUnimportantText`, src/addHeaderGuard.ts:871-884)

Each of the five global regex replacements replaces every match with `maskChar.repeat(length)`.
Matching happens on the string as it stands before that replacement; the passes are applied in
sequence, each to the output of the previous one.  A global replacement is embedded in two
steps: compute the list of match intervals (scanning left to right, restarting after each
match, advancing by one after a failed position or an empty match, exactly as the JS engine
does), then substitute the filler character inside those intervals. -/

/-- A half-open interval `[fst, snd)` of character offsets matched by a regex. -/
abbrev MaskInterval := Nat × Nat

/-- Replace, inside `l` whose first character has absolute offset `i`, every character whose
offset lies in one of the intervals by `maskChar`. -/
def maskIntervals (ivs : List MaskInterval) (maskChar : Char) : Nat → List Char → List Char
  | _, [] => []
  | i, c :: r =>
    (if ivs.any (fun iv => iv.1 ≤ i && i < iv.2) then maskChar else c)
      :: maskIntervals ivs maskChar (i + 1) r

/-- One of the five regex shapes of `maskUnimportantText`: a fixed lookbehind, a starred body
of single-character alternatives consumed greedily, and a trailing look-around that the
backtracking engine satisfies at the largest reachable extent. -/
structure RegexPass where
  /-- Does the lookbehind hold just before offset `t` of `s`? -/
  lookbehind : List Char → Nat → Bool
  /-- Greedy number of body characters consumable from this suffix of the string. -/
  consumeLen : List Char → Nat
  /-- Do the trailing look-arounds hold for a match starting at `t` with body length `k`? -/
  landing : List Char → Nat → Nat → Bool

/-- Largest `k ≤ bound` satisfying `land` (the JS engine backtracks from the greedy extent). -/
def findLargestK (land : Nat → Bool) : Nat → Option Nat
  | 0 => if land 0 then some 0 else none
  | k + 1 => if land (k + 1) then some (k + 1) else findLargestK land k

/-- All match intervals of a pass over `s`, scanning from offset `t` (fuelled; each step
advances the offset by at least one, so `s.length + 1` fuel always suffices). -/
def scanPass (p : RegexPass) (s : List Char) : Nat → Nat → List MaskInterval
  | _, 0 => []
  | t, fuel + 1 =>
    if s.length ≤ t then []
    else if p.lookbehind s t then
      match findLargestK (p.landing s t) (p.consumeLen (s.drop t)) with
      | some (k + 1) => (t, t + k + 1) :: scanPass p s (t + k + 1) fuel
      | some 0 => scanPass p s (t + 1) fuel
      | none => scanPass p s (t + 1) fuel
    else scanPass p s (t + 1) fuel

/-- Greedy length of `(\*(?=\/)|[^*])*`: consumes any character that is not a `*`, and a `*`
only when the next character is `/`. -/
def blockBodyLen : List Char → Nat
  | [] => 0
  | c :: r => if c ≠ '*' || r.head? == some '/' then 1 + blockBodyLen r else 0

/-- Greedy length of `.*`: consumes any character up to the next line terminator. -/
def dotLen (l : List Char) : Nat :=
  (l.takeWhile (fun c => !jsIsLineTerm c)).length

/-- Greedy length of `(>(?=>)|[^>])*`: any character except a `>` not followed by `>`. -/
def angleBodyLen : List Char → Nat
  | [] => 0
  | c :: r => if c ≠ '>' || r.head? == some '>' then 1 + angleBodyLen r else 0

/-- `/(?<=\/\*)(\*(?=\/)|[^*])*(?=\*\/)/g`: the interior of a block comment. -/
def blockCommentPass : RegexPass :=
  { lookbehind := fun s t => 2 ≤ t && s[t-2]? == some '/' && s[t-1]? == some '*'
    consumeLen := blockBodyLen
    landing := fun s t k => s[t+k]? == some '*' && s[t+k+1]? == some '/' }

/-- `/(?<=\/\/).*/g`: the rest of the line after a line comment marker. -/
def lineCommentPass : RegexPass :=
  { lookbehind := fun s t => 2 ≤ t && s[t-2]? == some '/' && s[t-1]? == some '/'
    consumeLen := dotLen
    landing := fun _ _ _ => true }

/-- `/(?<=").*(?=")(?<!\\)/g`: between two double quotes on one line, not ending after a
backslash. -/
def stringLitPass : RegexPass :=
  { lookbehind := fun s t => 1 ≤ t && s[t-1]? == some '"'
    consumeLen := dotLen
    landing := fun s t k => s[t+k]? == some '"' && (k == 0 || !(s[t+k-1]? == some '\\')) }

/-- `/(?<=').*(?=')(?<!\\)/g`: between two single quotes on one line, not ending after a
backslash. -/
def charLitPass : RegexPass :=
  { lookbehind := fun s t => 1 ≤ t && s[t-1]? == some '\''
    consumeLen := dotLen
    landing := fun s t k => s[t+k]? == some '\'' && (k == 0 || !(s[t+k-1]? == some '\\')) }

/-- `/(?<=<)(>(?=>)|[^>])*(?=>)/g`: the interior of a first-level angle-bracket list. -/
def templateArgPass : RegexPass :=
  { lookbehind := fun s t => 1 ≤ t && s[t-1]? == some '<'
    consumeLen := angleBodyLen
    landing := fun s t k => s[t+k]? == some '>' }

/-- One global regex replacement of `maskUnimportantText`. -/
def applyPass (p : RegexPass) (maskChar : Char) (s : List Char) : List Char :=
  maskIntervals (scanPass p s 0 (s.length + 1)) maskChar 0 s

/-- `maskUnimportantText` (src/addHeaderGuard.ts:871-884): successively mask block-comment
interiors, line comments, double-quoted contents, single-quoted contents, and angle-bracket
interiors, each replacement preserving the length of its match. -/
def maskUnimportantText (source : String) (maskChar : Char := ' ') : String :=
  String.mk
    (applyPass templateArgPass maskChar
      (applyPass charLitPass maskChar
        (applyPass stringLitPass maskChar
          (applyPass lineCommentPass maskChar
            (applyPass blockCommentPass maskChar source.data)))))

/-! ## Positions and ranges

`vscode.Position` is a line/character pair ordered lexicographically; `vscode.Range` is a
start/end pair of positions, and `Range.contains(position)` is inclusive at both ends. -/

structure VPos where
  line : Nat
  character : Nat
deriving DecidableEq

/-- `Position.isBeforeOrEqual`. -/
def VPos.isBeforeOrEqual (a b : VPos) : Bool :=
  a.line < b.line || (a.line == b.line && a.character ≤ b.character)

/-- `Position.isAfterOrEqual`. -/
def VPos.isAfterOrEqual (a b : VPos) : Bool :=
  VPos.isBeforeOrEqual b a

/-- `Position.isAfter`: strictly after. -/
def VPos.isAfter (a b : VPos) : Bool :=
  !VPos.isBeforeOrEqual a b

structure VRange where
  start : VPos
  stop : VPos
deriving DecidableEq

/-- `vscode.Range.contains(position)`: `start ≤ position ≤ end`. -/
def VRange.containsPos (r : VRange) (p : VPos) : Bool :=
  VPos.isAfterOrEqual p r.start && VPos.isBeforeOrEqual p r.stop

/-! ## Symbol kinds (`vscode.SymbolKind`, restricted to the kinds the source inspects) -/

inductive SymKind where
  | Class
  | Struct
  | Method
  | Function
  | Constructor
  | Operator
  | Field
  | Namespace
  | Other
deriving DecidableEq, BEq

/-! ## `CSymbol` in the offset model (src/addHeaderGuard.ts:130-482)

For the purely offset-driven member functions of `CSymbol` a position is represented by its
document offset (`document.offsetAt` is a bijection between the two), the document by its full
text, and a symbol by its kind, its `range` and `selectionRange` as offset pairs, and its
children.  `text()` and `id()` are the corresponding slices of the document text. -/

structure CSym where
  kind : SymKind
  rangeStart : Nat
  rangeEnd : Nat
  selStart : Nat
  selEnd : Nat
  children : List CSym

instance : Inhabited CSym := ⟨⟨SymKind.Other, 0, 0, 0, 0, []⟩⟩

/-- `CSymbol.id()`: the text of the selection range (src:172). -/
def idOf (doc : List Char) (sym : CSym) : List Char :=
  slice doc sym.selStart sym.selEnd

/-- `isMemberVariable()` (src:354-357). -/
def CSym.isMemberVariable (sym : CSym) : Bool :=
  sym.kind == SymKind.Field

/-- `isFunction()` (src:359-370). -/
def CSym.isFunction (sym : CSym) : Bool :=
  match sym.kind with
  | SymKind.Operator => true
  | SymKind.Method => true
  | SymKind.Constructor => true
  | SymKind.Function => true
  | _ => false

/-! ## `baseName` and accessor names (src/addHeaderGuard.ts:175-216)

The three anchored decoration regexes are embedded by their languages:
* `/^_+[\w_][\w\d_]*_*$/` holds exactly for words of length ≥ 2 over `\w` starting with `_`;
* `/^_*[\w_][\w\d_]*_+$/` holds exactly for words of length ≥ 2 over `\w` ending with `_`;
* `/^m_[\w_][\w\d_]*$/` holds exactly for words of length ≥ 3 over `\w` starting with `m_`
(`_` is itself a `\w` character, which is what collapses the pattern shapes like this).
Both of the underscore replacements, `/^_+|_*$/g` and `/^_*|_+$/g`, delete the maximal leading
run and the maximal trailing run of underscores. -/

/-- `/^_+[\w_][\w\d_]*_*$/`. -/
def reLeadUnderscore (s : List Char) : Bool :=
  2 ≤ s.length && s.head? == some '_' && s.all isWordChar

/-- `/^_*[\w_][\w\d_]*_+$/`. -/
def reTrailUnderscore (s : List Char) : Bool :=
  2 ≤ s.length && s.getLast? == some '_' && s.all isWordChar

/-- `/^m_[\w_][\w\d_]*$/`. -/
def reMStyle (s : List Char) : Bool :=
  match s with
  | 'm' :: '_' :: c :: r => isWordChar c && r.all isWordChar
  | _ => false

/-- `replace(/^_+|_*$/g, '')` and `replace(/^_*|_+$/g, '')`: strip the maximal leading and
trailing underscore runs. -/
def trimUnderscores (s : List Char) : List Char :=
  ((s.dropWhile (· == '_')).reverse.dropWhile (· == '_')).reverse

/-- `CSymbol.baseName()` (src:175-193).  The first matching rule computes the stripped name;
the final `baseMemberName ? baseMemberName : memberName` makes an *empty* stripped name (a
falsy string) fall back to the raw identifier. -/
def baseName (memberName : List Char) : List Char :=
  let stripped : Option (List Char) :=
    if reLeadUnderscore memberName then some (trimUnderscores memberName)
    else if reTrailUnderscore memberName then some (trimUnderscores memberName)
    else if reMStyle memberName then some (memberName.drop 2)
    else none
  match stripped with
  | some b => if b.isEmpty then memberName else b
  | none => memberName

/-- Modelled from the spec: `util.firstCharToUpper` lives in `src/utility.ts`, which is not
among the provided sources; the spec describes accessor names as
`"get"/"set" + capitalize(baseName)`, so it is modelled as upper-casing the first character. -/
def firstCharToUpper : List Char → List Char
  | [] => []
  | c :: r => c.toUpper :: r

def getStr : List Char := "get".data

def setStr : List Char := "set".data

/-- `CSymbol.getterName(memberBaseName?)` (src:195-206).  `memberBaseName ? memberBaseName :
this.baseName()` treats a missing *or empty* argument as "use `baseName()`". -/
def getterName (doc : List Char) (sym : CSym)
    (memberBaseName : Option (List Char) := none) : List Char :=
  if !sym.isMemberVariable then []
  else
    let b := match memberBaseName with
      | some s => if s.isEmpty then baseName (idOf doc sym) else s
      | none => baseName (idOf doc sym)
    if b == idOf doc sym then getStr ++ firstCharToUpper b else b

/-- `CSymbol.setterName(memberBaseName?)` (src:208-216). -/
def setterName (doc : List Char) (sym : CSym)
    (memberBaseName : Option (List Char) := none) : List Char :=
  if !sym.isMemberVariable then []
  else
    let b := match memberBaseName with
      | some s => if s.isEmpty then baseName (idOf doc sym) else s
      | none => baseName (idOf doc sym)
    setStr ++ firstCharToUpper b

/-! ## `findPositionForNewMethod` (src/addHeaderGuard.ts:273-352)

The `ProposedPosition` interface: optional boolean fields are absent (`undefined`) by default,
which a boolean test reads as `false`, so they are modelled as `Bool` defaulting to `false`. -/

structure ProposedPosition where
  value : Nat
  before : Bool := false
  after : Bool := false
  nextTo : Bool := false
deriving DecidableEq

def pubToken : List Char := "public".data

/-- Does `/\bpublic\s*:/` match at offset `t` of `s`?  `\b` holds when the previous character
is absent or not a word character; `\s*` is greedy and the backtracking engine only accepts
the `:` right after the maximal whitespace run. -/
def publicMatchAt (s : List Char) (t : Nat) : Bool :=
  (t == 0 || !((s[t-1]?.map isWordChar).getD false)) &&
  slice s t (t + 6) == pubToken &&
  (let w := ((s.drop (t + 6)).takeWhile jsIsSpace).length
   s[t + 6 + w]? == some ':')

/-- `exec` of `/\bpublic\s*:/g` on `text`: index of the leftmost match. -/
def firstPublicIdx (s : List Char) : Option Nat :=
  (List.range s.length).find? (publicMatchAt s)

/-- The full-match length of `/\w[\w\d]*\s*:(?!:)/` at offset `t`, when it matches there:
the maximal word run (nonempty), the maximal whitespace run, then a `:` not followed by `:`. -/
def accessMatchLenAt (s : List Char) (t : Nat) : Option Nat :=
  match s[t]? with
  | some c =>
    if isWordChar c then
      let w := ((s.drop t).takeWhile isWordChar).length
      let ws := ((s.drop (t + w)).takeWhile jsIsSpace).length
      if s[t + w + ws]? == some ':' && !(s[t + w + ws + 1]? == some ':') then
        some (w + ws + 1)
      else none
    else none
  | none => none

/-- `matchAll` of `/\w[\w\d]*\s*:(?!:)/g`: the start indices of the successive
non-overlapping leftmost matches (each match is nonempty, so `s.length + 1` fuel suffices). -/
def accessScan (s : List Char) : Nat → Nat → List Nat
  | _, 0 => []
  | t, fuel + 1 =>
    if s.length ≤ t then []
    else
      match accessMatchLenAt s t with
      | some len => t :: accessScan s (t + len) fuel
      | none => accessScan s (t + 1) fuel

def accessMatchIdxs (s : List Char) : List Nat :=
  accessScan s 0 (s.length + 1)

/-- The local helper `symbolIsBetween` (src:282-287): a function child strictly after
`afterOffset` and strictly before `beforeOffset`. -/
def symbolIsBetween (sym : CSym) (afterOffset beforeOffset : Nat) : Bool :=
  sym.isFunction && afterOffset < sym.rangeStart && sym.rangeEnd < beforeOffset

/-- The local helper `lastChildPositionOrUndefined` (src:275-280). -/
def lastChildPositionOrUndefined (children : List CSym) : Option ProposedPosition :=
  match children.getLast? with
  | none => none
  | some c => some { value := c.rangeEnd, after := true }

/-- `for (let i = n - 1; i >= 0; --i) if (P i) return i;` — the index of the last element
satisfying `P` below `n`. -/
def scanDown (P : Nat → Bool) : Nat → Option Nat
  | 0 => none
  | i + 1 => if P i then some i else scanDown P i

/-- `CSymbol.findPositionForNewMethod(relativeName?, memberVariable?)` (src:273-352).

Notable details embedded faithfully from the source:
* the `public:` and access-specifier scans run on the **raw** symbol text (`this.text()`),
  not on masked text;
* `publicSpecifierOffset += startOffset` happens **before** the `matchAll` loop, so the loop
  compares each symbol-relative `match.index` against a document-absolute offset;
* `if (!match.index) continue;` skips a match at symbol-relative index 0;
* `if (!publicSpecifierOffset)` and `if (!fallbackPosition || !fallbackIndex)` are JS falsy
  tests, so a `public:` match at index 0 and a fallback child at index 0 both divert to
  `lastChildPositionOrUndefined`;
* `!relativeName` is also falsy for the empty string.

`memberVariable` carries its own document (first component), as a `CSymbol` does. -/
def findPositionForNewMethod (doc : List Char) (sym : CSym)
    (relativeName : Option (List Char) := none)
    (memberVariable : Option (List Char × CSym) := none) : Option ProposedPosition :=
  if !(sym.kind == SymKind.Class) && !(sym.kind == SymKind.Struct) then
    lastChildPositionOrUndefined sym.children
  else
    let text := slice doc sym.rangeStart sym.rangeEnd
    let startOffset := sym.rangeStart
    match firstPublicIdx text with
    | none => lastChildPositionOrUndefined sym.children
    | some pubIdx =>
      if pubIdx == 0 then lastChildPositionOrUndefined sym.children
      else
        let publicSpecifierOffset := pubIdx + startOffset
        let nextRel := (accessMatchIdxs text).find?
          (fun q => !(q == 0) && publicSpecifierOffset < q)
        let nextAccessSpecifierOffset :=
          match nextRel with
          | none => sym.rangeEnd
          | some q => q + startOffset
        let betw := fun c => symbolIsBetween c publicSpecifierOffset nextAccessSpecifierOffset
        match scanDown (fun i => betw (sym.children.getD i default)) sym.children.length with
        | none => lastChildPositionOrUndefined sym.children
        | some fallbackIndex =>
          let fallbackPosition : ProposedPosition :=
            { value := (sym.children.getD fallbackIndex default).rangeEnd, after := true }
          if fallbackIndex == 0 then lastChildPositionOrUndefined sym.children
          else
            match relativeName with
            | none => some fallbackPosition
            | some rel =>
              if rel.isEmpty then some fallbackPosition
              else
                let isGetter := match memberVariable with
                  | some mv => rel == setterName mv.1 mv.2
                  | none => false
                match scanDown
                    (fun i => betw (sym.children.getD i default) &&
                      idOf doc (sym.children.getD i default) == rel)
                    (fallbackIndex + 1) with
                | none => some fallbackPosition
                | some i =>
                  let c := sym.children.getD i default
                  if isGetter then
                    some { value := c.rangeStart, before := true, nextTo := true }
                  else
                    some { value := c.rangeEnd, after := true, nextTo := true }

/-- The behaviour claim C5 describes, written from the claim's words (refinement reference):
the `public:` token and the next access-specifier token are located in **masked** text (so
tokens inside comments or strings are not matched), the public section is bounded at the next
access-specifier token strictly after the `public:` match — both compared as symbol-relative
offsets — or at end-of-symbol only when no later access specifier exists; only function
children strictly inside that bound count.  All remaining glue is kept identical to
`findPositionForNewMethod` so that any behavioural difference comes from those points. -/
def findPositionForNewMethodSpecC5 (doc : List Char) (sym : CSym)
    (relativeName : Option (List Char) := none)
    (memberVariable : Option (List Char × CSym) := none) : Option ProposedPosition :=
  if !(sym.kind == SymKind.Class) && !(sym.kind == SymKind.Struct) then
    lastChildPositionOrUndefined sym.children
  else
    let text := (maskUnimportantText (String.mk (slice doc sym.rangeStart sym.rangeEnd))).data
    let startOffset := sym.rangeStart
    match firstPublicIdx text with
    | none => lastChildPositionOrUndefined sym.children
    | some pubIdx =>
      if pubIdx == 0 then lastChildPositionOrUndefined sym.children
      else
        let publicSpecifierOffset := pubIdx + startOffset
        let nextRel := (accessMatchIdxs text).find? (fun q => pubIdx < q)
        let nextAccessSpecifierOffset :=
          match nextRel with
          | none => sym.rangeEnd
          | some q => q + startOffset
        let betw := fun c => symbolIsBetween c publicSpecifierOffset nextAccessSpecifierOffset
        match scanDown (fun i => betw (sym.children.getD i default)) sym.children.length with
        | none => lastChildPositionOrUndefined sym.children
        | some fallbackIndex =>
          let fallbackPosition : ProposedPosition :=
            { value := (sym.children.getD fallbackIndex default).rangeEnd, after := true }
          if fallbackIndex == 0 then lastChildPositionOrUndefined sym.children
          else
            match relativeName with
            | none => some fallbackPosition
            | some rel =>
              if rel.isEmpty then some fallbackPosition
              else
                let isGetter := match memberVariable with
                  | some mv => rel == setterName mv.1 mv.2
                  | none => false
                match scanDown
                    (fun i => betw (sym.children.getD i default) &&
                      idOf doc (sym.children.getD i default) == rel)
                    (fallbackIndex + 1) with
                | none => some fallbackPosition
                | some i =>
                  let c := sym.children.getD i default
                  if isGetter then
                    some { value := c.rangeStart, before := true, nextTo := true }
                  else
                    some { value := c.rangeEnd, after := true, nextTo := true }

/-- The amended C5 behaviour as a declarative reference: identical to the source embedding
except that the two downward `for`-loops are phrased as "the greatest index below the bound
satisfying the predicate" (`(List.range n).filter P |>.getLast?`). -/
def findPositionForNewMethodAmendedC5 (doc : List Char) (sym : CSym)
    (relativeName : Option (List Char) := none)
    (memberVariable : Option (List Char × CSym) := none) : Option ProposedPosition :=
  if !(sym.kind == SymKind.Class) && !(sym.kind == SymKind.Struct) then
    lastChildPositionOrUndefined sym.children
  else
    let text := slice doc sym.rangeStart sym.rangeEnd
    let startOffset := sym.rangeStart
    match firstPublicIdx text with
    | none => lastChildPositionOrUndefined sym.children
    | some pubIdx =>
      if pubIdx == 0 then lastChildPositionOrUndefined sym.children
      else
        let publicSpecifierOffset := pubIdx + startOffset
        let nextRel := (accessMatchIdxs text).find?
          (fun q => !(q == 0) && publicSpecifierOffset < q)
        let nextAccessSpecifierOffset :=
          match nextRel with
          | none => sym.rangeEnd
          | some q => q + startOffset
        let betw := fun c => symbolIsBetween c publicSpecifierOffset nextAccessSpecifierOffset
        match ((List.range sym.children.length).filter
            (fun i => betw (sym.children.getD i default))).getLast? with
        | none => lastChildPositionOrUndefined sym.children
        | some fallbackIndex =>
          let fallbackPosition : ProposedPosition :=
            { value := (sym.children.getD fallbackIndex default).rangeEnd, after := true }
          if fallbackIndex == 0 then lastChildPositionOrUndefined sym.children
          else
            match relativeName with
            | none => some fallbackPosition
            | some rel =>
              if rel.isEmpty then some fallbackPosition
              else
                let isGetter := match memberVariable with
                  | some mv => rel == setterName mv.1 mv.2
                  | none => false
                match ((List.range (fallbackIndex + 1)).filter
                    (fun i => betw (sym.children.getD i default) &&
                      idOf doc (sym.children.getD i default) == rel)).getLast? with
                | none => some fallbackPosition
                | some i =>
                  let c := sym.children.getD i default
                  if isGetter then
                    some { value := c.rangeStart, before := true, nextTo := true }
                  else
                    some { value := c.rangeEnd, after := true, nextTo := true }

/-! ## `findDefinitionInWorkspace` (src/addHeaderGuard.ts:907-932)

A candidate is a `vscode.Location` (a `LocationLink` result is converted to one by taking its
`targetUri`/`targetRange`, which is a plain projection, so candidates are modelled as
locations directly).  An absent result list from the provider is modelled as `[]` (the source
returns no result for both).  `workspaceFolders` is `undefined` or a list of root paths. -/

structure Location where
  path : List Char
  range : VRange
deriving DecidableEq

/-- JavaScript `String.prototype.includes`: substring containment. -/
def jsIncludes (s sub : List Char) : Bool :=
  match s with
  | [] => sub.isEmpty
  | _ :: r => sub.isPrefixOf s || jsIncludes r sub

/-- `findDefinitionInWorkspace(position, uri)` over the provider's candidate list: the
`for`-loop returns the first candidate that is either in the query's own file with a range
not containing the query position, or in a different file whose path contains some workspace
folder's path. -/
def findDefinitionInWorkspace (definitionResults : List Location) (uriPath : List Char)
    (position : VPos) (workspaceFolders : Option (List (List Char))) : Option Location :=
  match definitionResults with
  | [] => none
  | location :: rest =>
    if location.path == uriPath && !(location.range.containsPos position) then
      some location
    else
      match workspaceFolders with
      | some folders =>
        if !(location.path == uriPath) && folders.any (fun f => jsIncludes location.path f) then
          some location
        else
          findDefinitionInWorkspace rest uriPath position workspaceFolders
      | none => findDefinitionInWorkspace rest uriPath position workspaceFolders

/-- The selection policy claim C2 describes, written from the claim's words (refinement
reference): first prefer a same-file candidate whose range does not contain the query
position, anywhere in the list; only when none exists anywhere, take the first candidate
located under some currently open workspace root; otherwise no result. -/
def findDefinitionInWorkspaceSpecC2 (definitionResults : List Location) (uriPath : List Char)
    (position : VPos) (workspaceFolders : Option (List (List Char))) : Option Location :=
  match definitionResults.find?
      (fun l => l.path == uriPath && !(l.range.containsPos position)) with
  | some l => some l
  | none =>
    match workspaceFolders with
    | some folders =>
      definitionResults.find? (fun l => folders.any (fun f => jsIncludes l.path f))
    | none => none

/-! ## The sibling split of `findPositionForNewDefinition` (src/addHeaderGuard.ts:698-714)

`symbol.range === declaration.range` compares two `vscode.Range` heap objects with the
JavaScript strict-equality operator, which for objects is reference identity.  A range object
is therefore modelled as its value (start/end document offsets) plus an allocation identity
`tag`; two ranges are `===`-equal exactly when their tags coincide (references to one
allocation), while value equality ignores the tag. -/

structure RangeObj where
  startOff : Nat
  endOff : Nat
  tag : Nat
deriving DecidableEq

/-- JavaScript `===` on two `vscode.Range` objects: reference identity. -/
def jsSameRangeObj (a b : RangeObj) : Bool :=
  a.tag == b.tag

/-- Range equality by value, ignoring object identity. -/
def rangeValEq (a b : RangeObj) : Bool :=
  a.startOff == b.startOff && a.endOff == b.endOff

/-- A sibling symbol, reduced to the datum the split loop inspects: its `range` object. -/
structure SibSym where
  range : RangeObj
deriving DecidableEq

/-- The split loop of `findPositionForNewDefinition` (src:700-714) with its running
`hitTarget` flag: every sibling whose range is `===`-equal to the declaration's range is
skipped and flips the flag; the rest go to `before` or `after` depending on the flag. -/
def splitSiblingsAux (declRange : RangeObj) : List SibSym → Bool → List SibSym × List SibSym
  | [], _ => ([], [])
  | s :: rest, hitTarget =>
    if jsSameRangeObj s.range declRange then
      splitSiblingsAux declRange rest true
    else
      let p := splitSiblingsAux declRange rest hitTarget
      if hitTarget then (p.1, s :: p.2) else (s :: p.1, p.2)

def splitSiblings (siblingSymbols : List SibSym) (declRange : RangeObj) :
    List SibSym × List SibSym :=
  splitSiblingsAux declRange siblingSymbols false

/-- The split claim C7 describes, written from the claim's words (refinement reference): the
declaration sibling is identified by range equality **by value**, so a value-equal range from
a distinct instance also marks the split. -/
def splitSiblingsSpecC7Aux (declRange : RangeObj) :
    List SibSym → Bool → List SibSym × List SibSym
  | [], _ => ([], [])
  | s :: rest, hitTarget =>
    if rangeValEq s.range declRange then
      splitSiblingsSpecC7Aux declRange rest true
    else
      let p := splitSiblingsSpecC7Aux declRange rest hitTarget
      if hitTarget then (p.1, s :: p.2) else (s :: p.1, p.2)

def splitSiblingsSpecC7 (siblingSymbols : List SibSym) (declRange : RangeObj) :
    List SibSym × List SibSym :=
  splitSiblingsSpecC7Aux declRange siblingSymbols false

/-! ## `SourceSymbol` trees (src/addHeaderGuard.ts:72-127, 499-540)

For the tree-shaped code a symbol keeps its line/character ranges.  `uri` and the non-owning
`parent` back-reference play no role in the ordering and lookup claims and are omitted. -/

structure Sym where
  name : List Char
  kind : SymKind
  range : VRange
  selectionRange : VRange
  children : List Sym

/-- The sort comparator `(a, b) => a.range.start.isAfter(b.range.start) ? 1 : -1` (src:87-89,
507-509) is negative — placing `a` before `b` — exactly when `¬(a.start > b.start)`, i.e.
`a.range.start ≤ b.range.start`. -/
def startLe (a b : Sym) : Bool :=
  VPos.isBeforeOrEqual a.range.start b.range.start

/-- `Array.prototype.sort` with that comparator: a stable comparison sort, modelled by a
stable merge sort keyed by `startLe`.  (The comparator never returns 0; on two symbols with
equal starts it reports `-1` either way, which a comparison sort may realise in either order —
both orders agree on the `≤`-by-start ordering that the claims are about.) -/
def sortByStart (l : List Sym) : List Sym :=
  l.mergeSort startLe

mutual

/-- The `SourceSymbol` constructor (src:80-98): sort the raw children in place by range
start, then convert each child recursively (the conversion keeps name, kind and ranges). -/
def buildSym : Sym → Sym
  | ⟨n, k, r, sr, ch⟩ => ⟨n, k, r, sr, buildForest (sortByStart ch)⟩
termination_by s => sizeOf s
decreasing_by
  simp only [sortByStart]
  rw [List.Perm.sizeOf_eq_sizeOf (List.mergeSort_perm ch startLe)]
  simp

/-- `docSymbol.children.forEach(child => convertedChildren.push(new SourceSymbol(child)))`. -/
def buildForest : List Sym → List Sym
  | [] => []
  | c :: rest => buildSym c :: buildForest rest
termination_by l => sizeOf l

end

/-- `SourceFile.executeSourceSymbolProvider` (src:499-517): an absent provider result yields
the empty list; otherwise the top-level array is sorted by range start and each symbol is
converted. -/
def executeSourceSymbolProvider (documentSymbols : Option (List Sym)) : List Sym :=
  match documentSymbols with
  | none => []
  | some ds => buildForest (sortByStart ds)

/-- Adjacent-pair ordering of a sibling list: `children[i].range.start ≤
children[i+1].range.start` for all valid `i`. -/
def chainStartLe : List Sym → Bool
  | [] => true
  | [_] => true
  | a :: b :: rest => startLe a b && chainStartLe (b :: rest)

mutual

/-- Every level of the tree is `chainStartLe`-ordered. -/
def sortedTree : Sym → Bool
  | ⟨_, _, _, _, ch⟩ => chainStartLe ch && sortedForest ch
termination_by s => sizeOf s

def sortedForest : List Sym → Bool
  | [] => true
  | c :: rest => sortedTree c && sortedForest rest
termination_by l => sizeOf l

end

/-- `SourceFile.getSymbol`'s local `searchSymbolTree` (src:519-540): take the first symbol of
the level whose range contains the position; if it has no children return it, otherwise
recurse into its children and return that result unconditionally. -/
def searchSymbolTree (position : VPos) : List Sym → Option Sym
  | [] => none
  | ⟨n, k, r, sr, ch⟩ :: rest =>
    if r.containsPos position then
      if ch.isEmpty then some ⟨n, k, r, sr, ch⟩
      else searchSymbolTree position ch
    else searchSymbolTree position rest
termination_by l => sizeOf l

/-! ## `findPositionForNewInclude` (src/addHeaderGuard.ts:748-827)

This algorithm is line-driven: the document is its list of lines (text without the
end-of-line), `line.range.start = (i, 0)` and `line.range.end = (i, line.text.length)`.
Lines contain no line-terminator characters. -/

/-- JavaScript `String.prototype.trim` (over the ASCII whitespace that can occur here). -/
def jsTrim (s : List Char) : List Char :=
  ((s.dropWhile jsIsSpace).reverse.dropWhile jsIsSpace).reverse

/-- `/<.+>/`: a `<` with at least one character before a later `>`. -/
def containsAngleToken : List Char → Bool
  | [] => false
  | c :: r => (c == '<' && (r.drop 1).contains '>') || containsAngleToken r

/-- `/".+"/`: a `"` with at least one character before a later `"`. -/
def containsQuoteToken : List Char → Bool
  | [] => false
  | c :: r => (c == '"' && (r.drop 1).contains '"') || containsQuoteToken r

def includeTok : List Char := "#include".data

/-- The first alternative `^#include\s*(<.+>)` of the line test. -/
def includeAngleAtStart (s : List Char) : Bool :=
  includeTok.isPrefixOf s &&
  (let rest := (s.drop 8).dropWhile jsIsSpace
   rest.head? == some '<' && (rest.drop 2).contains '>')

/-- The second alternative `(".+")$` of the line test. -/
def quoteAtEnd (s : List Char) : Bool :=
  s.getLast? == some '"' && (s.take (s.length - 2)).contains '"'

/-- `/^#include\s*(<.+>)|(".+")$/` — the alternation groups as `^#include\s*<.+>` or
`".+"$`. -/
def includeLineTest (s : List Char) : Bool :=
  includeAngleAtStart s || quoteAtEnd s

/-- JavaScript `>` applied to two `vscode.Range` objects (src:755, `r > largest`): both
operands convert to the primitive string "[object Object]", so the comparison is always
false.  (Under TypeScript this comparison is ill-typed — `Operator cannot be applied to types
Range and Range` — which marks it as a slip; the local is *named* `largestBlock`.) -/
def jsRangeGt (_r _largest : VRange) : Bool :=
  false

/-- The local helper `largestBlock(line, start, largest)` (src:751-756). -/
def largestBlock (lineStart : VPos) (start : VPos) (largest : Option VRange) : VRange :=
  let r : VRange := ⟨start, lineStart⟩
  match largest with
  | none => r
  | some lg => if jsRangeGt r lg then r else lg

structure IncludeScanState where
  systemIncludeStart : Option VPos := none
  projectIncludeStart : Option VPos := none
  largestSystemIncludeBlock : Option VRange := none
  largestProjectIncludeBlock : Option VRange := none
deriving DecidableEq

/-- One iteration of the line loop of `findPositionForNewInclude` (src:762-789) on line `i`. -/
def includeScanStep (st : IncludeScanState) (i : Nat) (lineText : List Char) :
    IncludeScanState :=
  if !includeLineTest (jsTrim lineText) then
    match st.systemIncludeStart with
    | some s =>
      { st with
        largestSystemIncludeBlock :=
          some (largestBlock ⟨i, 0⟩ s st.largestSystemIncludeBlock)
        systemIncludeStart := none }
    | none =>
      match st.projectIncludeStart with
      | some p =>
        { st with
          largestProjectIncludeBlock :=
            some (largestBlock ⟨i, 0⟩ p st.largestProjectIncludeBlock)
          projectIncludeStart := none }
      | none => st
  else if containsAngleToken lineText then
    let st1 :=
      if st.systemIncludeStart.isNone then { st with systemIncludeStart := some ⟨i, 0⟩ }
      else st
    match st1.projectIncludeStart with
    | some p =>
      { st1 with
        largestProjectIncludeBlock :=
          some (largestBlock ⟨i, 0⟩ p st1.largestProjectIncludeBlock)
        projectIncludeStart := none }
    | none => st1
  else if containsQuoteToken lineText then
    let st1 :=
      if st.projectIncludeStart.isNone then { st with projectIncludeStart := some ⟨i, 0⟩ }
      else st
    match st1.systemIncludeStart with
    | some s =>
      { st1 with
        largestSystemIncludeBlock :=
          some (largestBlock ⟨i, 0⟩ s st1.largestSystemIncludeBlock)
        systemIncludeStart := none }
    | none => st1
  else st

def scanIncludes (lines : List (List Char)) : IncludeScanState :=
  lines.enum.foldl (fun st p => includeScanStep st p.1 p.2) {}

/-- The upward scan of src:819-824: the end of the last non-blank line at or below `i`. -/
def scanUpNonBlank (lines : List (List Char)) : Nat → Option VPos
  | 0 =>
    if !(lines.getD 0 []).all jsIsSpace then some ⟨0, (lines.getD 0 []).length⟩ else none
  | i + 1 =>
    if !(lines.getD (i + 1) []).all jsIsSpace then some ⟨i + 1, (lines.getD (i + 1) []).length⟩
    else scanUpNonBlank lines i

/-- `SourceDocument.findPositionForNewInclude` (src:748-827).  `symbols` stands for the
file's (possibly empty) symbol list used by the no-include-block fallback. -/
def findPositionForNewInclude (lines : List (List Char)) (symbols : List Sym) :
    VPos × VPos :=
  let st := scanIncludes lines
  match st.largestSystemIncludeBlock, st.largestProjectIncludeBlock with
  | some sb, some pb => (sb.stop, pb.stop)
  | some sb, none => (sb.stop, sb.stop)
  | none, some pb => (pb.stop, pb.stop)
  | none, none =>
    let startLineNum :=
      match symbols with
      | [] => lines.length - 1
      | s :: _ => s.range.start.line
    match scanUpNonBlank lines startLineNum with
    | some p => (p, p)
    | none => (⟨0, 0⟩, ⟨0, 0⟩)

/-! ## Concrete instances used by the theorems below -/

/-- A line holding two string literals: the `+` between them is inside no comment, string
content or template-argument list. -/
def c1Str : String := "\"a\" + \"b\""

/-- What the masker actually produces for `c1Str`. -/
def c1Masked : String := "\"       \""

/-- A short string the masker leaves unchanged. -/
def plainStr : String := "ab"

/-- `int m_count;` with selection range over `m_count`. -/
def mcountDoc : List Char := "int m_count;".data

def symMCount : CSym := ⟨SymKind.Field, 0, 11, 4, 11, []⟩

/-- `int count;` with selection range over `count`. -/
def countDoc : List Char := "int count;".data

def symCount : CSym := ⟨SymKind.Field, 0, 9, 4, 9, []⟩

def getCountStr : List Char := "getCount".data

def setCountStr : List Char := "setCount".data

def countStr : List Char := "count".data

/-- A class whose only `public:` token sits inside a block comment, with a function `f`
declared before the comment, `g` between the comment and `private:`, and `h` after
`private:`.  Offsets: `f` spans [8,15) with identifier at [12,13); the comment spans
[17,30); `g` spans [31,38) with identifier at [35,36); `private` starts at 40 with its `:`
at 47; `h` spans [49,56) with identifier at [53,54). -/
def c5doc : List Char :=
  "class A\x7bint f(); /* public: */ int g(); private: int h();\x7d;".data

def c5f : CSym := ⟨SymKind.Method, 8, 15, 12, 13, []⟩

def c5g : CSym := ⟨SymKind.Method, 31, 38, 35, 36, []⟩

def c5h : CSym := ⟨SymKind.Method, 49, 56, 53, 54, []⟩

def c5class : CSym := ⟨SymKind.Class, 0, 59, 6, 7, [c5f, c5g, c5h]⟩

/-- A class with a `public:` section holding `getX()` then `setX(int)` then the member
variable `x`.  Offsets: `public` at [8,14) with `:` at 14; `int getX()` spans [16,26) with
identifier at [20,24); `void setX(int x)` spans [28,44) with identifier at [33,37);
`int x` spans [46,51) with identifier at [50,51). -/
def c8doc : List Char :=
  "class A\x7bpublic: int getX(); void setX(int x); int x;\x7d;".data

def c8getX : CSym := ⟨SymKind.Method, 16, 26, 20, 24, []⟩

def c8setX : CSym := ⟨SymKind.Method, 28, 44, 33, 37, []⟩

def c8x : CSym := ⟨SymKind.Field, 46, 51, 50, 51, []⟩

def c8class : CSym := ⟨SymKind.Class, 0, 54, 6, 7, [c8getX, c8setX, c8x]⟩

def setXStr : List Char := "setX".data

/-- Query file path for the definition-lookup counterexample. -/
def c2uri : List Char := "/w/a.cpp".data

def c2pathB : List Char := "/w/b.cpp".data

def c2root : List Char := "/w".data

/-- A candidate in a *different* file that lies under the open workspace root. -/
def c2locB : Location := ⟨c2pathB, ⟨⟨0, 0⟩, ⟨0, 1⟩⟩⟩

/-- A candidate in the *same* file whose range does not contain the query position. -/
def c2locA : Location := ⟨c2uri, ⟨⟨0, 0⟩, ⟨1, 0⟩⟩⟩

def c2pos : VPos := ⟨10, 0⟩

def c2folders : Option (List (List Char)) := some [c2root]

/-- The provider returns the foreign-file candidate first. -/
def c2results : List Location := [c2locB, c2locA]

/-- A sibling whose range is value-equal to the declaration's range but is a distinct
instance (different allocation tag). -/
def c7sib : SibSym := ⟨⟨0, 5, 0⟩⟩

def c7decl : RangeObj := ⟨0, 5, 1⟩

def c6l0 : List Char := "#include <a>".data

def c6l2 : List Char := "#include <b>".data

def c6l3 : List Char := "#include <c>".data

def c6l5 : List Char := "#include \"p\"".data

def c6l7 : List Char := "int x;".data

/-- A one-line system-include run, then a blank line, then a two-line system-include run,
then a project include: the largest system run is the second one (lines 2-3). -/
def c6lines : List (List Char) := [c6l0, [], c6l2, c6l3, [], c6l5, [], c6l7]

def fStr : List Char := "f".data

def aStr : List Char := "A".data

/-- A leaf child covering `(0,8)-(0,9)` only. -/
def c10child : Sym :=
  { name := fStr
    kind := SymKind.Method
    range := ⟨⟨0, 8⟩, ⟨0, 9⟩⟩
    selectionRange := ⟨⟨0, 8⟩, ⟨0, 9⟩⟩
    children := [] }

/-- A class spanning `(0,0)-(2,0)` whose only child does not contain position `(1,0)`. -/
def c10parent : Sym :=
  { name := aStr
    kind := SymKind.Class
    range := ⟨⟨0, 0⟩, ⟨2, 0⟩⟩
    selectionRange := ⟨⟨0, 6⟩, ⟨0, 7⟩⟩
    children := [c10child] }

def c10pos : VPos := ⟨1, 0⟩

/-! # Theorems

## C1 — the lexical masker -/

theorem maskIntervals_length (ivs : List MaskInterval) (mc : Char) :
    ∀ (i : Nat) (l : List Char), (maskIntervals ivs mc i l).length = l.length := by
  intro i l
  induction l generalizing i with
  | nil => rfl
  | cons c r ih => simp [maskIntervals, ih]

theorem maskIntervals_filler (ivs : List MaskInterval) (mc : Char) :
    ∀ (i : Nat) (l : List Char) (j : Nat) (c : Char),
      (maskIntervals ivs mc i l)[j]? = some c → c = mc ∨ l[j]? = some c := by
  intro i l
  induction l generalizing i with
  | nil => intro j c h; simp [maskIntervals] at h
  | cons a r ih =>
    intro j c h
    cases j with
    | zero =>
      simp only [maskIntervals, List.getElem?_cons_zero, Option.some.injEq] at h
      by_cases hp : (ivs.any fun iv => iv.1 ≤ i && i < iv.2) = true
      · rw [if_pos hp] at h
        exact Or.inl h.symm
      · rw [if_neg hp] at h
        right
        rw [List.getElem?_cons_zero, h]
    | succ j =>
      simp only [maskIntervals, List.getElem?_cons_succ] at h ⊢
      exact ih (i + 1) j c h

theorem applyPass_length (p : RegexPass) (mc : Char) (s : List Char) :
    (applyPass p mc s).length = s.length :=
  maskIntervals_length _ _ _ _

theorem applyPass_filler (p : RegexPass) (mc : Char) (s : List Char) (j : Nat) (c : Char) :
    (applyPass p mc s)[j]? = some c → c = mc ∨ s[j]? = some c :=
  maskIntervals_filler _ _ _ _ _ _

/-- **C1** (amended).  For every input string `s`, `maskUnimportantText(s)` returns a string
of exactly the same length as `s` in which every character is either the character of `s` at
the same offset or the filler character; the replaced spans are the matches of the five
heuristic regex passes, which can extend beyond block comments, line comments, quoted
contents and first-level template-argument interiors (see the counterexample for the part of
the original claim that fails). -/
theorem maskUnimportantText_length_and_filler (s : String) :
    (maskUnimportantText s).length = s.length ∧
      ∀ (i : Nat) (c : Char),
        (maskUnimportantText s).data[i]? = some c → c = ' ' ∨ s.data[i]? = some c := by
  constructor
  · show (maskUnimportantText s).data.length = s.length
    simp only [maskUnimportantText, String.length, applyPass_length]
  · intro i c h
    simp only [maskUnimportantText] at h
    rcases applyPass_filler _ _ _ _ _ h with h | h
    · exact Or.inl h
    rcases applyPass_filler _ _ _ _ _ h with h | h
    · exact Or.inl h
    rcases applyPass_filler _ _ _ _ _ h with h | h
    · exact Or.inl h
    rcases applyPass_filler _ _ _ _ _ h with h | h
    · exact Or.inl h
    rcases applyPass_filler _ _ _ _ _ h with h | h
    · exact Or.inl h
    · exact Or.inr h

/-- Witness for the C1 theorem at a concrete input: `"ab"` is returned unchanged, so its
first character satisfies the unchanged disjunct. -/
theorem maskUnimportantText_length_and_filler_witness :
    (maskUnimportantText plainStr).length = plainStr.length ∧
      ('a' = ' ' ∨ plainStr.data[0]? = some 'a') :=
  ⟨(maskUnimportantText_length_and_filler plainStr).1,
   (maskUnimportantText_length_and_filler plainStr).2 0 'a' (by decide)⟩

/-- **C1** counterexample.  In `"a" + "b"` the character `+` at offset 4 lies between the
two string literals — inside no block comment, line comment, quoted content or
template-argument list — yet the masker replaces it with the filler, because the
quoted-content regex `(?<=").*(?=")` matches greedily from after the first `"` of the line to
before the last one.  So not every character outside the listed categories is unchanged at
its original offset. -/
theorem maskUnimportantText_c1_counterexample :
    maskUnimportantText c1Str = c1Masked ∧
      c1Str.data[4]? = some '+' ∧ c1Masked.data[4]? = some ' ' := by
  decide

/-! ## C2 — definition-candidate selection -/

/-- **C2** (amended).  The selection among definition candidates is a *single* pass in list
order: the result is the first candidate that either (a) is in the query's file and has a
range not containing the query position, or (b) is in a different file and lies under some
currently open workspace root (path-substring test); if no candidate satisfies either, there
is no result.  (The original claim's two-phase policy — same-file candidates preferred over
workspace-root candidates appearing earlier in the list — fails; see the counterexample.) -/
theorem findDefinitionInWorkspace_policy (results : List Location) (uriPath : List Char)
    (position : VPos) (workspaceFolders : Option (List (List Char))) :
    findDefinitionInWorkspace results uriPath position workspaceFolders =
      results.find? (fun l =>
        (l.path == uriPath && !(l.range.containsPos position)) ||
        (!(l.path == uriPath) &&
          (match workspaceFolders with
           | some folders => folders.any (fun f => jsIncludes l.path f)
           | none => false))) := by
  induction results with
  | nil => rfl
  | cons l rest ih =>
    cases workspaceFolders with
    | none =>
      simp only [findDefinitionInWorkspace, List.find?]
      by_cases h1 : (l.path == uriPath && !(l.range.containsPos position)) = true
      · simp [h1]
      · simp only [h1] at *
        simp [h1, ih]
    | some folders =>
      simp only [findDefinitionInWorkspace, List.find?]
      by_cases h1 : (l.path == uriPath && !(l.range.containsPos position)) = true
      · simp [h1]
      · by_cases h2 :
          (!(l.path == uriPath) && folders.any (fun f => jsIncludes l.path f)) = true
        · simp [h1, h2]
        · simp [h1, h2, ih]

/-- **C2** counterexample.  With the candidate list `[foreign-file-under-root,
same-file-not-containing]`, the code returns the foreign-file candidate — the first in list
order satisfying either branch — although a same-file candidate whose range does not contain
the query position exists later in the list; the claimed policy would return that same-file
candidate. -/
theorem findDefinitionInWorkspace_c2_counterexample :
    findDefinitionInWorkspace c2results c2uri c2pos c2folders = some c2locB ∧
      findDefinitionInWorkspaceSpecC2 c2results c2uri c2pos c2folders = some c2locA ∧
      c2locB ≠ c2locA := by
  decide

/-! ## C3, C4 — accessor naming -/

/-- **C3** counterexample.  For the member variable `m_count` the code's `getterName()` is
`"count"` — the stripped base name, returned because stripping changed the identifier — not
`"getCount"`; and for a member literally named `count` the code's `getterName()` is
`"getCount"`, not `"count"`.  The claim has the two getter cases swapped. -/
theorem getterName_c3_counterexample :
    ¬(getterName mcountDoc symMCount = getCountStr ∧
      setterName mcountDoc symMCount = setCountStr ∧
      getterName countDoc symCount = countStr) := by
  decide

/-- **C3** (amended).  For a member-variable symbol whose identifier is `"m_count"`,
`getterName()` returns `"count"` and `setterName()` returns `"setCount"`; for a
member-variable symbol whose identifier is literally `"count"`, `getterName()` returns
`"getCount"`. -/
theorem accessorNames_c3_amended :
    getterName mcountDoc symMCount = countStr ∧
      setterName mcountDoc symMCount = setCountStr ∧
      getterName countDoc symCount = getCountStr := by
  decide

/-- **C4.**  For every symbol: when it is a member variable, `getterName()` returns
`"get" + capitalize(baseName())` exactly when `baseName()` equals the raw identifier (no
decoration was stripped) and returns `baseName()` itself otherwise; when it is not a member
variable, `getterName()` returns the empty string. -/
theorem getterName_shape (doc : List Char) (sym : CSym) :
    getterName doc sym =
      (if sym.isMemberVariable then
        (if baseName (idOf doc sym) == idOf doc sym then
          getStr ++ firstCharToUpper (baseName (idOf doc sym))
        else baseName (idOf doc sym))
      else []) := by
  by_cases h : sym.isMemberVariable = true
  · simp [getterName, h]
  · simp [getterName, h]

/-! ## C5, C8 — new-method placement -/

theorem scanDown_eq_filter_getLast (P : Nat → Bool) :
    ∀ n, scanDown P n = ((List.range n).filter P).getLast? := by
  intro n
  induction n with
  | zero => rfl
  | succ n ih =>
    rw [scanDown, List.range_succ, List.filter_append]
    by_cases h : P n = true
    · simp [h, List.getLast?_concat]
    · simp [h, ih]

/-- **C5** (amended).  `findPositionForNewMethod` locates the first `public:` token and the
access-specifier tokens in the **raw** symbol text (so tokens inside comments or strings are
matched too); it bounds the public section by taking the first `matchAll` access-specifier
match whose symbol-relative index is nonzero and exceeds the **document-absolute** public
offset (`publicSpecifierOffset` already has the symbol's start offset added when the
comparison runs), falling back to the end-of-symbol offset when no match qualifies; within
that bound it anchors on the *greatest-index* function child lying strictly inside the bound.
This theorem equates the loop-for-loop source embedding with that declarative description. -/
theorem findPositionForNewMethod_c5_amended (doc : List Char) (sym : CSym)
    (relativeName : Option (List Char)) (memberVariable : Option (List Char × CSym)) :
    findPositionForNewMethod doc sym relativeName memberVariable =
      findPositionForNewMethodAmendedC5 doc sym relativeName memberVariable := by
  simp only [findPositionForNewMethod, findPositionForNewMethodAmendedC5,
    scanDown_eq_filter_getLast]

/-- **C5** counterexample.  In `c5class` the only `public:` token sits inside a block
comment.  The claimed (masked) behaviour finds no public section and falls back to the last
child, proposing the end of `h` (offset 56); the code scans the raw text, treats the
commented `public:` as an access specifier, bounds the section at `private:` and proposes the
end of `g` (offset 38).  Tokens inside comments *are* matched, contradicting the claim. -/
theorem findPositionForNewMethod_c5_counterexample :
    findPositionForNewMethod c5doc c5class none none =
        some { value := 38, after := true } ∧
      findPositionForNewMethodSpecC5 c5doc c5class none none =
        some { value := 56, after := true } := by
  decide

/-- **C8.**  For the class with a `public:` section containing `getX()` then `setX(int)`,
calling `findPositionForNewMethod` with `relativeName = "setX"` and the member variable `x`
(whose setter name is `setX`) returns a proposed position whose value equals `setX`'s range
start, with `before := true` and `nextTo := true`: the generated getter is placed directly
before its setter with no blank-line separator. -/
theorem findPositionForNewMethod_getter_before_setter :
    findPositionForNewMethod c8doc c8class (some setXStr) (some (c8doc, c8x)) =
      some { value := c8setX.rangeStart, before := true, nextTo := true } := by
  decide

/-! ## C6 — include-block anchoring -/

/-- **C6** (code-bug evidence).  On `c6lines` — a one-line system-include run (line 0), a
larger two-line system run (lines 2-3) and one project run (line 5) — the function records
the *first* system run as the "largest" block and anchors the system include at `(1,0)`, the
end of that first run, instead of `(4,0)`, the end of the largest run: with both kinds
present it returns `((1,0), (6,0))`.  The cause is `r > largest` at src:755, which applies
the JS `>` operator to two `vscode.Range` objects; both convert to the same primitive string,
so the comparison is always false and the first recorded block is never replaced, although
the helper is named `largestBlock` and the accumulators `largest...IncludeBlock` (and the
comparison is ill-typed under TypeScript), marking the spec as the intent and the code as the
slip. -/
theorem findPositionForNewInclude_keeps_first_block :
    findPositionForNewInclude c6lines [] = (⟨1, 0⟩, ⟨6, 0⟩) ∧
      (scanIncludes c6lines).largestSystemIncludeBlock = some ⟨⟨0, 0⟩, ⟨1, 0⟩⟩ := by
  decide

/-! ## C7 — the sibling split of `findPositionForNewDefinition` -/

theorem splitSiblingsAux_hit (declRange : RangeObj) :
    ∀ l : List SibSym,
      splitSiblingsAux declRange l true =
        ([], l.filter (fun s => !(jsSameRangeObj s.range declRange))) := by
  intro l
  induction l with
  | nil => rfl
  | cons s rest ih =>
    by_cases h : jsSameRangeObj s.range declRange = true
    · simp [splitSiblingsAux, h, ih]
    · simp [splitSiblingsAux, h, ih]

/-- **C7** (amended).  The sibling that marks the split is identified by *reference
identity* of the two range objects (JavaScript `===`), not by range value: `before` collects
the siblings strictly preceding the first sibling whose range is the same object as the
declaration's range, and `after` collects the later siblings that are not reference-equal to
it.  A sibling whose range is merely value-equal (a distinct instance, e.g. from a rebuilt
tree) does not mark the split — see the counterexample. -/
theorem splitSiblings_reference_identity (l : List SibSym) (declRange : RangeObj) :
    splitSiblings l declRange =
      (l.takeWhile (fun s => !(jsSameRangeObj s.range declRange)),
       ((l.dropWhile (fun s => !(jsSameRangeObj s.range declRange))).drop 1).filter
         (fun s => !(jsSameRangeObj s.range declRange))) := by
  induction l with
  | nil => rfl
  | cons s rest ih =>
    simp only [splitSiblings] at ih ⊢
    by_cases h : jsSameRangeObj s.range declRange = true
    · simp [splitSiblingsAux, h, splitSiblingsAux_hit, List.takeWhile_cons,
        List.dropWhile_cons]
    · simp [splitSiblingsAux, h, List.takeWhile_cons, List.dropWhile_cons, ih]

/-- **C7** counterexample.  A sibling whose range is value-equal to the declaration's range
but a distinct object (different allocation tag) does *not* mark the split: the code leaves
it in the `before` sub-sequence, whereas the claimed value-equality split would exclude it
and mark the split at it. -/
theorem splitSiblings_c7_counterexample :
    splitSiblings [c7sib] c7decl = ([c7sib], []) ∧
      splitSiblingsSpecC7 [c7sib] c7decl = ([], []) ∧
      rangeValEq c7sib.range c7decl = true ∧
      jsSameRangeObj c7sib.range c7decl = false := by
  decide

/-! ## C9 — tree ordering -/

theorem startLe_trans (a b c : Sym) (h1 : startLe a b = true) (h2 : startLe b c = true) :
    startLe a c = true := by
  simp only [startLe, VPos.isBeforeOrEqual, Bool.or_eq_true, Bool.and_eq_true,
    decide_eq_true_eq, beq_iff_eq] at h1 h2 ⊢
  omega

theorem startLe_total (a b : Sym) : (startLe a b || startLe b a) = true := by
  simp only [startLe, VPos.isBeforeOrEqual, Bool.or_eq_true, Bool.and_eq_true,
    decide_eq_true_eq, beq_iff_eq]
  omega

theorem chainStartLe_of_pairwise :
    ∀ l : List Sym, l.Pairwise (fun a b => startLe a b = true) → chainStartLe l = true := by
  intro l h
  induction l with
  | nil => rfl
  | cons a rest ih =>
    cases rest with
    | nil => rfl
    | cons b r2 =>
      rw [chainStartLe]
      have hp := List.pairwise_cons.mp h
      have hab : startLe a b = true := hp.1 b (by simp)
      have hrest : chainStartLe (b :: r2) = true := ih hp.2
      simp [hab, hrest]

theorem chainStartLe_sortByStart (l : List Sym) : chainStartLe (sortByStart l) = true := by
  apply chainStartLe_of_pairwise
  exact List.sorted_mergeSort startLe_trans startLe_total l

theorem buildSym_range (s : Sym) : (buildSym s).range = s.range := by
  cases s
  rw [buildSym]

theorem buildForest_eq_map : ∀ l : List Sym, buildForest l = l.map buildSym := by
  intro l
  induction l with
  | nil => simp [buildForest]
  | cons c rest ih => rw [buildForest, ih, List.map_cons]

theorem startLe_buildSym (a b : Sym) (h : startLe a b = true) :
    startLe (buildSym a) (buildSym b) = true := by
  simp only [startLe, buildSym_range]
  exact h

theorem chainStartLe_map_buildSym :
    ∀ l : List Sym, chainStartLe l = true → chainStartLe (l.map buildSym) = true := by
  intro l h
  induction l with
  | nil => rfl
  | cons a rest ih =>
    cases rest with
    | nil => rfl
    | cons b r2 =>
      rw [List.map_cons, List.map_cons, chainStartLe]
      rw [chainStartLe, Bool.and_eq_true] at h
      rw [List.map_cons] at ih
      simp [startLe_buildSym a b h.1, ih h.2]

theorem sortedForest_eq_all : ∀ l : List Sym, sortedForest l = l.all sortedTree := by
  intro l
  induction l with
  | nil => simp [sortedForest]
  | cons c rest ih => rw [sortedForest, ih, List.all_cons]

theorem sortedTree_buildSym :
    ∀ (n : Nat) (s : Sym), sizeOf s ≤ n → sortedTree (buildSym s) = true := by
  intro n
  induction n with
  | zero =>
    intro s h
    cases s with
    | mk nm k r sr ch => simp [Sym.mk.sizeOf_spec] at h
  | succ n ih =>
    intro s hs
    cases s with
    | mk nm k r sr ch =>
      rw [buildSym, sortedTree, buildForest_eq_map, Bool.and_eq_true]
      constructor
      · exact chainStartLe_map_buildSym _ (chainStartLe_sortByStart ch)
      · rw [sortedForest_eq_all, List.all_eq_true]
        intro x hx
        obtain ⟨c, hc, rfl⟩ := List.mem_map.mp hx
        have hc2 : c ∈ ch := List.mem_mergeSort.mp hc
        have hlt : sizeOf c < sizeOf ch := List.sizeOf_lt_of_mem hc2
        apply ih
        simp [Sym.mk.sizeOf_spec] at hs
        omega

/-- **C9.**  Every constructed symbol tree is ordered at every level: the top-level list
built by `executeSourceSymbolProvider` satisfies `children[i].range.start ≤
children[i+1].range.start` for all valid `i`, each of its trees satisfies the same at every
level, and the `SourceSymbol` constructor (`buildSym`) re-establishes the ordering at every
level for any raw input tree.  (A `CSymbol` tree is the `SourceSymbol` tree re-wrapped with
children converted in order — src:150-156 — so it carries the same ordering.) -/
theorem symbolTree_ordering (raw : Option (List Sym)) :
    chainStartLe (executeSourceSymbolProvider raw) = true ∧
      (executeSourceSymbolProvider raw).all sortedTree = true ∧
      ∀ d : Sym, sortedTree (buildSym d) = true := by
  refine ⟨?_, ?_, fun d => sortedTree_buildSym (sizeOf d) d (Nat.le_refl _)⟩
  · cases raw with
    | none => rfl
    | some ds =>
      rw [executeSourceSymbolProvider, buildForest_eq_map]
      exact chainStartLe_map_buildSym _ (chainStartLe_sortByStart ds)
  · cases raw with
    | none => rfl
    | some ds =>
      rw [executeSourceSymbolProvider, buildForest_eq_map, List.all_eq_true]
      intro x hx
      obtain ⟨c, hc, rfl⟩ := List.mem_map.mp hx
      exact sortedTree_buildSym (sizeOf c) c (Nat.le_refl _)

/-! ## C10 — position lookup skips symbols with children -/

theorem searchSymbolTree_none_of_not_contains (pos : VPos) :
    ∀ l : List Sym, (∀ c ∈ l, c.range.containsPos pos = false) →
      searchSymbolTree pos l = none := by
  intro l h
  induction l with
  | nil => rw [searchSymbolTree]
  | cons s rest ih =>
    cases s with
    | mk nm k r sr ch =>
      rw [searchSymbolTree]
      have hc : r.containsPos pos = false := h ⟨nm, k, r, sr, ch⟩ (List.mem_cons_self _ _)
      simp only [hc, Bool.false_eq_true, if_false]
      exact ih (fun c hcm => h c (List.mem_cons_of_mem _ hcm))

theorem searchSymbolTree_result_leaf :
    ∀ (n : Nat) (l : List Sym) (pos : VPos) (s : Sym),
      sizeOf l ≤ n → searchSymbolTree pos l = some s → s.children = [] := by
  intro n
  induction n with
  | zero =>
    intro l pos s hl
    cases l with
    | nil => intro h; rw [searchSymbolTree] at h; exact absurd h (by simp)
    | cons hd rest => simp at hl
  | succ n ih =>
    intro l pos s hl hsearch
    cases l with
    | nil => rw [searchSymbolTree] at hsearch; exact absurd hsearch (by simp)
    | cons hd rest =>
      cases hd with
      | mk nm k r sr ch =>
        rw [searchSymbolTree] at hsearch
        have hsz : sizeOf ch ≤ n ∧ sizeOf rest ≤ n := by
          simp [Sym.mk.sizeOf_spec] at hl
          omega
        by_cases hc : r.containsPos pos = true
        · simp only [hc, if_true] at hsearch
          by_cases he : ch.isEmpty = true
          · simp only [he, if_true, Option.some.injEq] at hsearch
            rw [← hsearch]
            exact List.isEmpty_iff.mp he
          · simp only [he, Bool.false_eq_true, if_false] at hsearch
            exact ih ch pos s hsz.1 hsearch
        · simp only [eq_false_of_ne_true hc, Bool.false_eq_true, if_false] at hsearch
          exact ih rest pos s hsz.2 hsearch

/-- **C10.**  (1) When the first symbol of a level whose range contains the query position
has one or more children and no child's range contains the position — e.g. a position inside
a class body between two member declarations — `getSymbol`'s `searchSymbolTree` returns no
result.  (2) More generally, any symbol it does return is childless: a symbol that has
children is never itself returned as the match, even though its range contains the query
position. -/
theorem getSymbol_no_partial_parent_match :
    (∀ (pos : VPos) (l1 l2 : List Sym) (s : Sym),
        (∀ t ∈ l1, t.range.containsPos pos = false) →
        s.range.containsPos pos = true →
        s.children ≠ [] →
        (∀ c ∈ s.children, c.range.containsPos pos = false) →
        searchSymbolTree pos (l1 ++ s :: l2) = none) ∧
      (∀ (pos : VPos) (l : List Sym) (s : Sym),
        searchSymbolTree pos l = some s → s.children = []) := by
  constructor
  · intro pos l1 l2 s h1 h2 h3 h4
    induction l1 with
    | nil =>
      rw [List.nil_append]
      cases s with
      | mk nm k r sr ch =>
        rw [searchSymbolTree]
        simp only at h2 h3 h4
        simp only [h2, if_true]
        have he : ch.isEmpty = false := by
          cases ch with
          | nil => exact absurd rfl h3
          | cons a b => rfl
        simp only [he, Bool.false_eq_true, if_false]
        exact searchSymbolTree_none_of_not_contains pos ch h4
    | cons t ts ih =>
      rw [List.cons_append]
      cases t with
      | mk nm k r sr ch =>
        rw [searchSymbolTree]
        have hc : r.containsPos pos = false :=
          h1 ⟨nm, k, r, sr, ch⟩ (List.mem_cons_self _ _)
        simp only [hc, Bool.false_eq_true, if_false]
        exact ih (fun u hu => h1 u (List.mem_cons_of_mem _ hu))
  · intro pos l s h
    exact searchSymbolTree_result_leaf (sizeOf l) l pos s (Nat.le_refl _) h

/-- Witness for the C10 theorem: position `(1,0)` lies in `c10parent`'s range, `c10parent`
has a child, and the child's range does not contain the position; the lookup returns no
result. -/
theorem getSymbol_no_partial_parent_match_witness :
    searchSymbolTree c10pos [c10parent] = none :=
  getSymbol_no_partial_parent_match.1 c10pos [] [] c10parent (by simp)
    (by decide) (by simp [c10parent]) (by decide)

end Cmantic
